import Mathlib

/-!
Verification development for the response reader / line framer / response
classifier of `Sodaq_Ublox.cpp`.

The embedding works at two granularities, matching the layering of the code:

* Byte level: `readBytesUntil` and `readLn` (source lines 253-318) are modelled
  over an input stream given as a `List Nat` of bytes; exhaustion of the list
  plays the role of a `timedRead` timeout.  The line buffer is modelled as a
  function `Nat → Nat` (byte at each index) together with explicit bound
  checks: an access at an index `≥ size` is out of bounds and makes the model
  return `none` (undefined behaviour in the C source).  `size_t` subtraction
  is modelled exactly, as arithmetic modulo `2 ^ 32` (`usub`), because
  `readLn` subtracts from a length that can be `0`.

* Line level: `readResponse` (source lines 157-230) is modelled over the
  sequence of lines produced by the successive `readLn(250)` calls that happen
  before the overall deadline elapses; the end of that list is the point where
  `is_timedout(from, timeout)` becomes true.  An empty line stands for an
  iteration whose `readLn` returned `count <= 0`.  The caller's output buffer
  is again a function `Nat → Nat`, and the model additionally records the index
  of every single store performed on it (`writes`), the number of
  `sodaq_wdt_reset()` invocations (`wdt`) and every line passed to the
  `checkURC` virtual (`urcs`).
-/

/-- Bytes of the literal `"AT"`. -/
def atB : List Nat := [65, 84]

/-- Bytes of the literal `"OK"`. -/
def okB : List Nat := [79, 75]

/-- Bytes of the literal `"ERROR"`. -/
def errB : List Nat := [69, 82, 82, 79, 82]

/-- Bytes of the literal `"+CME ERROR:"`. -/
def cmeB : List Nat := [43, 67, 77, 69, 32, 69, 82, 82, 79, 82, 58]

/-- Bytes of the literal `"+CMS ERROR:"`. -/
def cmsB : List Nat := [43, 67, 77, 83, 32, 69, 82, 82, 79, 82, 58]

/-- Model of `Sodaq_Ublox::startsWith` (source line 491):
`strncmp(pre, str, strlen(pre)) == 0`, i.e. `pre` is a literal byte-for-byte
leading segment of `str`.  Case sensitive, no normalisation. -/
def startsWith : List Nat → List Nat → Bool
  | [], _ => true
  | _ :: _, [] => false
  | a :: as, b :: bs => a == b && startsWith as bs

/-- Number of values of the 32-bit `size_t` of the embedded target. -/
def USIZE : Nat := 2 ^ 32

/-- Subtraction of `size_t` values: wraps modulo `2 ^ 32`.  Needed because
`readLn` computes `len - (SODAQ_UBLOX_TERMINATOR_LEN - 1)` where `len` can be
`0`. -/
def usub (a b : Nat) : Nat := (a + USIZE - b) % USIZE

/-- Model of `Sodaq_Ublox::readBytesUntil` (source lines 253-276) restricted to
what it stores: collect bytes from the stream until the terminator byte is
seen, the stream ends (a `timedRead` timeout), or `length` bytes have been
collected.  The returned list is the sequence of bytes written to the buffer
(the terminator itself is never stored), so its length is the function's
return value. -/
def readBytesUntil (t : Nat) : Nat → List Nat → List Nat
  | 0, _ => []
  | _ + 1, [] => []
  | n + 1, c :: cs => if c == t then [] else c :: readBytesUntil t n cs

/-- Store the bytes of `src` into `mem` at consecutive indices starting at
`i` (the effect of the store loop of `readBytesUntil`, and of `memcpy`). -/
def writeBytes (mem : Nat → Nat) (i : Nat) : List Nat → (Nat → Nat)
  | [] => mem
  | b :: bs => writeBytes (fun j => if j = i then b else mem j) (i + 1) bs

/-- Model of `Sodaq_Ublox::readLn(buffer, size, timeout)` (source lines
302-318).  `SODAQ_UBLOX_TERMINATOR` is `"\r\n"` (bytes `13`, `10`) and
`SODAQ_UBLOX_TERMINATOR_LEN` is `2`, so the compile-time constant condition
`SODAQ_UBLOX_TERMINATOR_LEN > 1` is true and is dropped.  Steps, in source
order:

1. `len = readBytesUntil('\n', buffer, size - 1, timeout)` — the size
   argument is the `size_t` expression `size - 1`, hence `usub size 1`;
   the collected bytes land at indices `0 .. len-1` and `readBytesUntil`
   writes a NUL at index `len` when `len < size - 1` (source line 271).
2. the CR strip test reads `buffer[len - (SODAQ_UBLOX_TERMINATOR_LEN - 1)]`,
   i.e. index `usub len 1` in `size_t` arithmetic; if that index is outside
   the buffer the model yields `none` (out-of-bounds read, undefined
   behaviour).  When the byte there is `13` (`'\r'`) the length is reduced by
   one, again with `size_t` subtraction.
3. `buffer[len] = '\0'` terminates the string at the (possibly reduced)
   length.

On success the model returns the final length and buffer contents. -/
def readLn (size : Nat) (stream : List Nat) (mem : Nat → Nat) :
    Option (Nat × (Nat → Nat)) :=
  let collected := readBytesUntil 10 (usub size 1) stream
  let len := collected.length
  let mem1 := writeBytes mem 0 collected
  let mem2 := if len < usub size 1 then fun j => if j = len then 0 else mem1 j else mem1
  let idx := usub len 1
  if idx < size then
    let len2 := if mem2 idx = 13 then usub len 1 else len
    some (len2, fun j => if j = len2 then 0 else mem2 j)
  else
    none

/-- The `GSMResponseTypes` values that `readResponse` can produce. -/
inductive GSMResponseTypes where
  | GSMResponseOK
  | GSMResponseError
  | GSMResponseTimeout
deriving DecidableEq, Repr

/-- State threaded through one `readResponse` invocation.

* `mem` — the caller's output buffer, byte at each index;
* `writes` — index of every single store performed on `outBuffer`, in order
  (instrumentation used to check bounds of all writes);
* `outSize` — the `outSize` local of the source;
* `wdt` — how many times `sodaq_wdt_reset()` has been invoked
  (instrumentation);
* `urcs` — every line passed to the `checkURC` virtual, in order
  (instrumentation). -/
structure RRState where
  mem : Nat → Nat
  writes : List Nat
  outSize : Nat
  wdt : Nat
  urcs : List (List Nat)

/-- Store byte `v` at index `i` of the output buffer, recording the write. -/
def memWrite (st : RRState) (i v : Nat) : RRState :=
  { st with mem := fun j => if j = i then v else st.mem j,
            writes := st.writes ++ [i] }

/-- The `memcpy(outBuffer + outSize, inBuffer, count)` of source line 220:
store the given bytes at consecutive indices starting at `i`. -/
def memcpyBuf : RRState → Nat → List Nat → RRState
  | st, _, [] => st
  | st, i, b :: bs => memcpyBuf (memWrite st i b) (i + 1) bs

/-- Effect of `sodaq_wdt_reset()` (source line 173): bump the invocation
counter. -/
def bump (st : RRState) : RRState := { st with wdt := st.wdt + 1 }

/-- Record that `checkURC(getInputBuffer())` was invoked on `line` (source
line 198). -/
def offerURC (st : RRState) (line : List Nat) : RRState :=
  { st with urcs := st.urcs ++ [line] }

/-- The `usePrefix` flag of source line 159: the prefix pointer is non-null
and its first byte is not NUL, i.e. the prefix is a supplied, non-empty byte
string. -/
def usePreOf : Option (List Nat) → Bool
  | none => false
  | some p => !p.isEmpty

/-- The `useOutBuffer` flag of source line 160: `outBuffer != NULL` (here:
`bn = false`, `bn` standing for "buffer pointer is null") and
`outMaxSize > 0`. -/
def useOutB (bn : Bool) (cap : Nat) : Bool := !bn && decide (0 < cap)

/-- The `hasPrefix` test of source line 196:
`usePrefix && useOutBuffer && startsWith(prefix, getInputBuffer())`. -/
def hasPreFor (pre : Option (List Nat)) (bn : Bool) (cap : Nat)
    (line : List Nat) : Bool :=
  usePreOf pre && useOutB bn cap && startsWith (pre.getD []) line

/-- The separator step of source lines 206-208: if some payload was already
assembled and there is still room below `outMaxSize - 1`, append a `'\n'`
byte (`10`). -/
def appendSep (cap : Nat) (st : RRState) : RRState :=
  if 0 < st.outSize ∧ st.outSize < cap - 1 then
    { memWrite st st.outSize 10 with outSize := st.outSize + 1 }
  else st

/-- The copy step of source lines 210-223: if there is room below
`outMaxSize - 1`, clip `count` so that `outSize + count ≤ outMaxSize - 1`,
copy that many bytes of `inBuffer`, advance `outSize` and store a NUL at the
new `outSize`.  `count0` is the incoming count (after prefix stripping). -/
def appendData (cap : Nat) (inBuffer : List Nat) (count0 : Nat)
    (st : RRState) : RRState :=
  if st.outSize < cap - 1 then
    let count := if cap - 1 < st.outSize + count0 then cap - 1 - st.outSize else count0
    let st1 := memcpyBuf st st.outSize (inBuffer.take count)
    memWrite { st1 with outSize := st1.outSize + count } (st1.outSize + count) 0
  else st

/-- Result of one iteration of the `readResponse` loop body: either a return
statement was reached (`done`) or the loop continues (`next`). -/
inductive StepResult where
  | done : GSMResponseTypes → RRState → StepResult
  | next : RRState → StepResult

/-- One iteration of the `while` body of `readResponse` (source lines
172-224), given the line produced by this iteration's `readLn(250)` call.
In source order:

* `sodaq_wdt_reset()` — unconditional (line 173);
* `count <= 0` — skip empty reads (line 175);
* echo check `startsWith("AT", ...)` (line 182);
* success check `startsWith("OK", ...)` (line 186);
* error checks (lines 190-192);
* `hasPrefix` (line 196), then `!hasPrefix && checkURC(...)` (line 198) —
  `checkURC` is invoked exactly when `hasPrefix` is false;
* the assembler block guarded by `hasPrefix || (!usePrefix && useOutBuffer)`
  (lines 202-224), with prefix stripping `inBuffer += strlen(prefix)`,
  `count -= strlen(prefix)` when `hasPrefix` (lines 212-216). -/
def rrStep (pre : Option (List Nat)) (bn : Bool) (cap : Nat)
    (urc : List Nat → Bool) (line : List Nat) (st0 : RRState) : StepResult :=
  let st := bump st0
  if line.length = 0 then .next st
  else if startsWith atB line then .next st
  else if startsWith okB line then .done .GSMResponseOK st
  else if startsWith errB line || startsWith cmeB line || startsWith cmsB line then
    .done .GSMResponseError st
  else
    let hasPre := hasPreFor pre bn cap line
    let st1 := if !hasPre then offerURC st line else st
    if !hasPre && urc line then .next st1
    else if hasPre || (!usePreOf pre && useOutB bn cap) then
      let stripN := if hasPre then (pre.getD []).length else 0
      .next (appendData cap (line.drop stripN) (line.length - stripN)
              (appendSep cap st1))
    else .next st1

/-- The `while (!is_timedout(from, timeout))` loop of `readResponse` (source
lines 171-229): process the lines read before the deadline one per iteration;
when the list is exhausted the deadline has passed and the function returns
`GSMResponseTimeout` (line 229). -/
def readResponseLoop (pre : Option (List Nat)) (bn : Bool) (cap : Nat)
    (urc : List Nat → Bool) : List (List Nat) → RRState → GSMResponseTypes × RRState
  | [], st => (.GSMResponseTimeout, st)
  | l :: rest, st =>
    match rrStep pre bn cap urc l st with
    | .done o st1 => (o, st1)
    | .next st1 => readResponseLoop pre bn cap urc rest st1

/-- Model of `Sodaq_Ublox::readResponse(outBuffer, outMaxSize, prefix,
timeout)` (source lines 157-230).  `bn` is true when `outBuffer == NULL`;
`cap` is `outMaxSize`; `pre` is the prefix argument (`none` for `NULL`);
`urc` is the `checkURC` virtual; `mem0` is the contents of the caller's
buffer before the call; `lines` is the sequence of `readLn(250)` results
obtained before the overall deadline.  Before the loop, source lines 166-168
clear the buffer — `if (outBuffer) { outBuffer[0] = 0; }` — guarded only by
the pointer being non-null, not by `outMaxSize > 0`. -/
def readResponse (bn : Bool) (cap : Nat) (pre : Option (List Nat))
    (urc : List Nat → Bool) (mem0 : Nat → Nat) (lines : List (List Nat)) :
    GSMResponseTypes × RRState :=
  let st : RRState := { mem := mem0, writes := [], outSize := 0, wdt := 0, urcs := [] }
  let st1 := if bn then st else memWrite st 0 0
  readResponseLoop pre bn cap urc lines st1

/-! Basic facts about `startsWith`. -/

theorem startsWith_length : ∀ p l : List Nat, startsWith p l = true → p.length ≤ l.length
  | [], _, _ => Nat.zero_le _
  | _ :: _, [], h => by simp [startsWith] at h
  | a :: as, b :: bs, h => by
    simp only [startsWith, Bool.and_eq_true] at h
    simpa using startsWith_length as bs h.2

theorem startsWith_ne_nil (p l : List Nat) (hp : p ≠ []) (h : startsWith p l = true) :
    l ≠ [] := by
  intro hl
  subst hl
  cases p with
  | nil => exact hp rfl
  | cons a as => simp [startsWith] at h

/-- The `readResponse` evaluation at the failing input for claim C1:
with a non-null output buffer and `outMaxSize = 0`, the entry clearing write
`outBuffer[0] = 0` (source line 167) is performed, so a byte is stored at
index `0`, which is not below the capacity `0`. -/
theorem C1_oob_clear_write :
    (readResponse false 0 none (fun _ => false) (fun _ => 42) []).2.writes = [0]
      ∧ ¬ ∀ i ∈ (readResponse false 0 none (fun _ => false) (fun _ => 42) []).2.writes,
            i < 0 := by
  decide

/-- The `readLn` evaluation at the failing input for claim C2: for the input
stream consisting of a lone `'\n'` byte, zero bytes are collected, and the
CR strip test reads `buffer[len - 1]` with `len = 0`, i.e. index
`2 ^ 32 - 1` in `size_t` arithmetic — an access outside the 1024-byte
buffer, which the model reports as `none` (undefined behaviour). -/
theorem C2_oob_strip_read :
    readLn 1024 [10] (fun _ => 42) = none := by
  rfl

/-- The `readResponse` evaluation at the failing input for claim C5:
capacity 5, no prefix, payload lines `"abc"` then `"xy"`.  The second line
exceeds the remaining capacity; the separator write lands in the last free
slot (overwriting the previous NUL) and the copy branch is skipped, so the
final buffer `[97, 98, 99, 10, 42]` holds no NUL byte anywhere within its
bound (the untouched byte 42 is the caller's original contents). -/
theorem C5_truncation_loses_nul :
    (readResponse false 5 none (fun _ => false) (fun _ => 42)
        [[97, 98, 99], [120, 121]]).2.outSize = 4
      ∧ ∀ i < 5, (readResponse false 5 none (fun _ => false) (fun _ => 42)
          [[97, 98, 99], [120, 121]]).2.mem i ≠ 0 := by
  decide

/-- The `readResponse` evaluation at the failing input for claim C8:
capacity 4, no prefix, payload lines `"ab"` then `"xy"`, then the overall
timeout.  The outcome is Timeout as claimed, but the assembled buffer
`[97, 98, 10, 42]` is not null-terminated within its bound: the separator
consumed the last free slot and no NUL was rewritten. -/
theorem C8_timeout_buffer_not_terminated :
    (readResponse false 4 none (fun _ => false) (fun _ => 42)
        [[97, 98], [120, 121]]).1 = .GSMResponseTimeout
      ∧ ∀ i < 4, (readResponse false 4 none (fun _ => false) (fun _ => 42)
          [[97, 98], [120, 121]]).2.mem i ≠ 0 := by
  decide

/-- Counterexample to claim C3 as stated: on an iteration whose `readLn`
returned zero bytes (one empty line, then timeout), the claim says the
watchdog hook is not emitted, so the total count should be `0`; the code
calls `sodaq_wdt_reset()` unconditionally at source line 173, before the
`count <= 0` check, so the count is `1`. -/
theorem C3_counterexample :
    (readResponse false 10 none (fun _ => false) (fun _ => 42) [[]]).2.wdt ≠ 0 := by
  decide

/-- Counterexample to claim C4 as stated: with input lines consisting of just
`"OK"` (zero echoed lines, no payload) the outcome is Success, but the
Output Buffer is not left with its prior contents intact: the caller's
buffer held byte `90` at index 0 before the call, and the entry clearing
write (source line 167) replaced it with `0`. -/
theorem C4_counterexample :
    (readResponse false 10 none (fun _ => false) (fun _ => 90) [okB]).1
        = .GSMResponseOK
      ∧ (readResponse false 10 none (fun _ => false) (fun _ => 90) [okB]).2.mem 0 ≠ 90 := by
  decide

/-! Characterisation of one loop iteration (`rrStep`) by the classification
of its line, mirroring the if-cascade of source lines 175-224. -/

theorem rrStep_empty (pre : Option (List Nat)) (bn : Bool) (cap : Nat)
    (urc : List Nat → Bool) (l : List Nat) (st : RRState) (h : l.length = 0) :
    rrStep pre bn cap urc l st = .next (bump st) := by
  simp [rrStep, h]

theorem rrStep_at (pre : Option (List Nat)) (bn : Bool) (cap : Nat)
    (urc : List Nat → Bool) (l : List Nat) (st : RRState)
    (h0 : l.length ≠ 0) (h1 : startsWith atB l = true) :
    rrStep pre bn cap urc l st = .next (bump st) := by
  simp [rrStep, h0, h1]

theorem rrStep_ok (pre : Option (List Nat)) (bn : Bool) (cap : Nat)
    (urc : List Nat → Bool) (l : List Nat) (st : RRState)
    (h0 : l.length ≠ 0) (h1 : startsWith atB l = false)
    (h2 : startsWith okB l = true) :
    rrStep pre bn cap urc l st = .done .GSMResponseOK (bump st) := by
  simp [rrStep, h0, h1, h2]

theorem rrStep_err (pre : Option (List Nat)) (bn : Bool) (cap : Nat)
    (urc : List Nat → Bool) (l : List Nat) (st : RRState)
    (h0 : l.length ≠ 0) (h1 : startsWith atB l = false)
    (h2 : startsWith okB l = false)
    (h3 : (startsWith errB l || startsWith cmeB l || startsWith cmsB l) = true) :
    rrStep pre bn cap urc l st = .done .GSMResponseError (bump st) := by
  simp [rrStep, h0, h1, h2, h3]

theorem rrStep_urc_claimed (pre : Option (List Nat)) (bn : Bool) (cap : Nat)
    (urc : List Nat → Bool) (l : List Nat) (st : RRState)
    (h0 : l.length ≠ 0) (h1 : startsWith atB l = false)
    (h2 : startsWith okB l = false)
    (h3 : (startsWith errB l || startsWith cmeB l || startsWith cmsB l) = false)
    (h4 : hasPreFor pre bn cap l = false) (h5 : urc l = true) :
    rrStep pre bn cap urc l st = .next (offerURC (bump st) l) := by
  simp [rrStep, h0, h1, h2, h3, h4, h5]

theorem rrStep_has_pre (pre : Option (List Nat)) (bn : Bool) (cap : Nat)
    (urc : List Nat → Bool) (l : List Nat) (st : RRState)
    (h0 : l.length ≠ 0) (h1 : startsWith atB l = false)
    (h2 : startsWith okB l = false)
    (h3 : (startsWith errB l || startsWith cmeB l || startsWith cmsB l) = false)
    (h4 : hasPreFor pre bn cap l = true) :
    rrStep pre bn cap urc l st =
      .next (appendData cap (l.drop (pre.getD []).length)
              (l.length - (pre.getD []).length) (appendSep cap (bump st))) := by
  simp [rrStep, h0, h1, h2, h3, h4]

theorem rrStep_catch_all (pre : Option (List Nat)) (bn : Bool) (cap : Nat)
    (urc : List Nat → Bool) (l : List Nat) (st : RRState)
    (h0 : l.length ≠ 0) (h1 : startsWith atB l = false)
    (h2 : startsWith okB l = false)
    (h3 : (startsWith errB l || startsWith cmeB l || startsWith cmsB l) = false)
    (h4 : hasPreFor pre bn cap l = false) (h5 : urc l = false)
    (h6 : usePreOf pre = false) (h7 : useOutB bn cap = true) :
    rrStep pre bn cap urc l st =
      .next (appendData cap l l.length (appendSep cap (offerURC (bump st) l))) := by
  simp [rrStep, h0, h1, h2, h3, h4, h5, h6, h7]

theorem rrStep_discard (pre : Option (List Nat)) (bn : Bool) (cap : Nat)
    (urc : List Nat → Bool) (l : List Nat) (st : RRState)
    (h0 : l.length ≠ 0) (h1 : startsWith atB l = false)
    (h2 : startsWith okB l = false)
    (h3 : (startsWith errB l || startsWith cmeB l || startsWith cmsB l) = false)
    (h4 : hasPreFor pre bn cap l = false) (h5 : urc l = false)
    (h6 : (!usePreOf pre && useOutB bn cap) = false) :
    rrStep pre bn cap urc l st = .next (offerURC (bump st) l) := by
  simp [rrStep, h0, h1, h2, h3, h4, h5, h6]

/-! Projection preservation lemmas for the state-updating helpers. -/

@[simp] theorem memWrite_wdt (st : RRState) (i v : Nat) :
    (memWrite st i v).wdt = st.wdt := rfl

@[simp] theorem memWrite_urcs (st : RRState) (i v : Nat) :
    (memWrite st i v).urcs = st.urcs := rfl

@[simp] theorem memWrite_outSize (st : RRState) (i v : Nat) :
    (memWrite st i v).outSize = st.outSize := rfl

@[simp] theorem bump_mem (st : RRState) : (bump st).mem = st.mem := rfl

@[simp] theorem bump_writes (st : RRState) : (bump st).writes = st.writes := rfl

@[simp] theorem bump_outSize (st : RRState) : (bump st).outSize = st.outSize := rfl

@[simp] theorem bump_urcs (st : RRState) : (bump st).urcs = st.urcs := rfl

@[simp] theorem bump_wdt (st : RRState) : (bump st).wdt = st.wdt + 1 := rfl

@[simp] theorem offerURC_mem (st : RRState) (l : List Nat) :
    (offerURC st l).mem = st.mem := rfl

@[simp] theorem offerURC_writes (st : RRState) (l : List Nat) :
    (offerURC st l).writes = st.writes := rfl

@[simp] theorem offerURC_outSize (st : RRState) (l : List Nat) :
    (offerURC st l).outSize = st.outSize := rfl

@[simp] theorem offerURC_wdt (st : RRState) (l : List Nat) :
    (offerURC st l).wdt = st.wdt := rfl

@[simp] theorem memcpyBuf_wdt : ∀ (src : List Nat) (st : RRState) (i : Nat),
    (memcpyBuf st i src).wdt = st.wdt
  | [], _, _ => rfl
  | b :: bs, st, i => by
    simpa [memcpyBuf] using memcpyBuf_wdt bs (memWrite st i b) (i + 1)

@[simp] theorem memcpyBuf_urcs : ∀ (src : List Nat) (st : RRState) (i : Nat),
    (memcpyBuf st i src).urcs = st.urcs
  | [], _, _ => rfl
  | b :: bs, st, i => by
    simpa [memcpyBuf] using memcpyBuf_urcs bs (memWrite st i b) (i + 1)

@[simp] theorem memcpyBuf_outSize : ∀ (src : List Nat) (st : RRState) (i : Nat),
    (memcpyBuf st i src).outSize = st.outSize
  | [], _, _ => rfl
  | b :: bs, st, i => by
    simpa [memcpyBuf] using memcpyBuf_outSize bs (memWrite st i b) (i + 1)

@[simp] theorem appendSep_wdt (cap : Nat) (st : RRState) :
    (appendSep cap st).wdt = st.wdt := by
  unfold appendSep; split <;> rfl

@[simp] theorem appendSep_urcs (cap : Nat) (st : RRState) :
    (appendSep cap st).urcs = st.urcs := by
  unfold appendSep; split <;> rfl

@[simp] theorem appendData_wdt (cap : Nat) (inBuffer : List Nat) (count0 : Nat)
    (st : RRState) : (appendData cap inBuffer count0 st).wdt = st.wdt := by
  unfold appendData; split <;> simp

@[simp] theorem appendData_urcs (cap : Nat) (inBuffer : List Nat) (count0 : Nat)
    (st : RRState) : (appendData cap inBuffer count0 st).urcs = st.urcs := by
  unfold appendData; split <;> simp

/-- A framed line on which the `readResponse` loop body reaches a `return`
statement: non-empty, not an echo, and matching one of the terminal markers
(source lines 186-194). -/
def isTerminalLine (l : List Nat) : Bool :=
  !decide (l.length = 0) && !startsWith atB l &&
    (startsWith okB l || startsWith errB l || startsWith cmeB l || startsWith cmsB l)

/-- Modelled from the amended claim C3: the number of loop iterations a given
line sequence produces — every line up to and including the first terminal
one counts, whether or not it carried data. -/
def specLoopIterations : List (List Nat) → Nat
  | [] => 0
  | l :: rest => if isTerminalLine l then 1 else 1 + specLoopIterations rest

theorem rrStep_done_of_terminal (pre : Option (List Nat)) (bn : Bool) (cap : Nat)
    (urc : List Nat → Bool) (l : List Nat) (st : RRState)
    (h : isTerminalLine l = true) :
    rrStep pre bn cap urc l st
      = .done (if startsWith okB l then .GSMResponseOK else .GSMResponseError)
          (bump st) := by
  simp only [isTerminalLine, Bool.and_eq_true, Bool.not_eq_true',
    decide_eq_false_iff_not, Bool.or_eq_true] at h
  obtain ⟨⟨h0, h1⟩, h2⟩ := h
  by_cases hok : startsWith okB l
  · rw [rrStep_ok pre bn cap urc l st h0 h1 hok, if_pos hok]
  · have h2' : (startsWith errB l || startsWith cmeB l || startsWith cmsB l) = true := by
      rcases h2 with ((h2 | h2) | h2) | h2
      · exact absurd h2 hok
      all_goals simp [h2]
    rw [rrStep_err pre bn cap urc l st h0 h1 (by simpa using hok) h2', if_neg hok]

theorem rrStep_next_of_not_terminal (pre : Option (List Nat)) (bn : Bool) (cap : Nat)
    (urc : List Nat → Bool) (l : List Nat) (st : RRState)
    (h : isTerminalLine l = false) :
    ∃ s', rrStep pre bn cap urc l st = .next s' ∧ s'.wdt = st.wdt + 1 := by
  by_cases h0 : l.length = 0
  · exact ⟨bump st, rrStep_empty pre bn cap urc l st h0, by simp⟩
  by_cases h1 : startsWith atB l
  · exact ⟨bump st, rrStep_at pre bn cap urc l st h0 h1, by simp⟩
  have hterm : (startsWith okB l || startsWith errB l || startsWith cmeB l
      || startsWith cmsB l) = false := by
    simp only [isTerminalLine, h0, h1] at h
    simpa using h
  simp only [Bool.or_eq_false_iff] at hterm
  obtain ⟨⟨⟨h2', herr⟩, hcme⟩, hcms⟩ := hterm
  have h3 : (startsWith errB l || startsWith cmeB l || startsWith cmsB l) = false := by
    rw [herr, hcme, hcms, Bool.or_false, Bool.or_false]
  by_cases h4 : hasPreFor pre bn cap l
  · refine ⟨_, rrStep_has_pre pre bn cap urc l st h0 (by simpa using h1) h2' h3 h4, ?_⟩
    simp
  by_cases h5 : urc l
  · refine ⟨_, rrStep_urc_claimed pre bn cap urc l st h0 (by simpa using h1) h2' h3
      (by simpa using h4) h5, ?_⟩
    simp
  by_cases h6 : (!usePreOf pre && useOutB bn cap) = true
  · have h6a : usePreOf pre = false := by
      have := (Bool.and_eq_true _ _).mp h6
      simpa using this.1
    have h6b : useOutB bn cap = true := ((Bool.and_eq_true _ _).mp h6).2
    refine ⟨_, rrStep_catch_all pre bn cap urc l st h0 (by simpa using h1) h2' h3
      (by simpa using h4) (by simpa using h5) h6a h6b, ?_⟩
    simp
  · refine ⟨_, rrStep_discard pre bn cap urc l st h0 (by simpa using h1) h2' h3
      (by simpa using h4) (by simpa using h5) (by simpa using h6), ?_⟩
    simp

theorem loop_wdt (pre : Option (List Nat)) (bn : Bool) (cap : Nat)
    (urc : List Nat → Bool) : ∀ (lines : List (List Nat)) (st : RRState),
    (readResponseLoop pre bn cap urc lines st).2.wdt = st.wdt + specLoopIterations lines
  | [], st => by simp [readResponseLoop, specLoopIterations]
  | l :: rest, st => by
    by_cases h : isTerminalLine l
    · rw [readResponseLoop, rrStep_done_of_terminal pre bn cap urc l st h]
      simp [specLoopIterations, h]
    · obtain ⟨s', hs, hw⟩ := rrStep_next_of_not_terminal pre bn cap urc l st
        (by simpa using h)
      rw [readResponseLoop, hs]
      rw [loop_wdt pre bn cap urc rest s', hw]
      simp [specLoopIterations, h]
      omega

/-- Amended claim C3: within every `readResponse` invocation the watchdog
reset hook `sodaq_wdt_reset()` is emitted exactly once per loop iteration —
including iterations whose line read returned zero bytes — because the call
at source line 173 precedes the `count <= 0` check of line 175. -/
theorem C3_wdt_once_per_iteration (bn : Bool) (cap : Nat) (pre : Option (List Nat))
    (urc : List Nat → Bool) (mem0 : Nat → Nat) (lines : List (List Nat)) :
    (readResponse bn cap pre urc mem0 lines).2.wdt = specLoopIterations lines := by
  unfold readResponse
  rw [loop_wdt]
  cases bn <;> simp [memWrite]

/-- Claim C6: `readResponse` classifies every framed line by ordered
first-match, case-sensitive literal-prefix comparison: a line beginning with
`"AT"` is discarded and reading continues; otherwise a line beginning with
`"OK"` ends the operation with Success; otherwise a line beginning with
`"ERROR"`, `"+CME ERROR:"` or `"+CMS ERROR:"` ends the operation with Error —
for every supplied expected prefix, so a line matching both an error marker
and the prefix is classified Error. -/
theorem C6_ordered_first_match (pre : Option (List Nat)) (bn : Bool) (cap : Nat)
    (urc : List Nat → Bool) (l : List Nat) (rest : List (List Nat)) (st : RRState)
    (h0 : l.length ≠ 0) :
    (startsWith atB l = true →
       readResponseLoop pre bn cap urc (l :: rest) st
         = readResponseLoop pre bn cap urc rest (bump st))
    ∧ (startsWith atB l = false → startsWith okB l = true →
       readResponseLoop pre bn cap urc (l :: rest) st = (.GSMResponseOK, bump st))
    ∧ (startsWith atB l = false → startsWith okB l = false →
       (startsWith errB l || startsWith cmeB l || startsWith cmsB l) = true →
       readResponseLoop pre bn cap urc (l :: rest) st = (.GSMResponseError, bump st)) := by
  refine ⟨fun h1 => ?_, fun h1 h2 => ?_, fun h1 h2 h3 => ?_⟩
  · rw [readResponseLoop, rrStep_at pre bn cap urc l st h0 h1]
  · rw [readResponseLoop, rrStep_ok pre bn cap urc l st h0 h1 h2]
  · rw [readResponseLoop, rrStep_err pre bn cap urc l st h0 h1 h2 h3]

/-- Witness for C6 at a concrete input: the line `"+CME ERROR: 10"` also
begins with the supplied expected prefix `"+CME"`, yet error precedence wins
and the operation ends with Error. -/
theorem C6_ordered_first_match_witness :
    readResponseLoop (some [43, 67, 77, 69]) false 32 (fun _ => false)
        ([[43, 67, 77, 69, 32, 69, 82, 82, 79, 82, 58, 32, 49, 48]])
        ⟨fun _ => 42, [], 0, 0, []⟩
      = (.GSMResponseError, bump ⟨fun _ => 42, [], 0, 0, []⟩) :=
  (C6_ordered_first_match (some [43, 67, 77, 69]) false 32 (fun _ => false)
      [43, 67, 77, 69, 32, 69, 82, 82, 79, 82, 58, 32, 49, 48] []
      ⟨fun _ => 42, [], 0, 0, []⟩ (by decide)).2.2
    (by decide) (by decide) (by decide)

theorem loop_at_then_ok (pre : Option (List Nat)) (bn : Bool) (cap : Nat)
    (urc : List Nat → Bool) : ∀ (ats : List (List Nat)) (st : RRState),
    (∀ l ∈ ats, startsWith atB l = true) →
    (readResponseLoop pre bn cap urc (ats ++ [okB]) st).1 = .GSMResponseOK
    ∧ (readResponseLoop pre bn cap urc (ats ++ [okB]) st).2.mem = st.mem
    ∧ (readResponseLoop pre bn cap urc (ats ++ [okB]) st).2.outSize = st.outSize
  | [], st, _ => by
    rw [List.nil_append, readResponseLoop,
      rrStep_ok pre bn cap urc okB st (by decide) (by decide) (by decide)]
    exact ⟨rfl, rfl, rfl⟩
  | l :: ats, st, h => by
    have hl : startsWith atB l = true := h l (List.mem_cons_self l ats)
    have h0 : l.length ≠ 0 := by
      have hlen := startsWith_length atB l hl
      intro hc
      rw [hc] at hlen
      simp [atB] at hlen
    rw [List.cons_append, readResponseLoop, rrStep_at pre bn cap urc l st h0 hl]
    have ih := loop_at_then_ok pre bn cap urc ats (bump st)
      (fun x hx => h x (List.mem_cons_of_mem _ hx))
    simpa using ih

/-- Amended claim C4: for every input stream of zero or more echoed `"AT..."`
lines followed by `"OK"`, `readResponse` returns Success and leaves the
Output Buffer holding the empty string — the entry write of source line 167
clears byte 0 to NUL (so the contents from before the call are not preserved
at index 0), and no payload byte is appended; all other bytes are untouched. -/
theorem C4_success_empty_buffer (cap : Nat) (pre : Option (List Nat))
    (urc : List Nat → Bool) (mem0 : Nat → Nat) (ats : List (List Nat))
    (h : ∀ l ∈ ats, startsWith atB l = true) :
    (readResponse false cap pre urc mem0 (ats ++ [okB])).1 = .GSMResponseOK
    ∧ (readResponse false cap pre urc mem0 (ats ++ [okB])).2.outSize = 0
    ∧ (readResponse false cap pre urc mem0 (ats ++ [okB])).2.mem 0 = 0
    ∧ ∀ i, i ≠ 0 →
        (readResponse false cap pre urc mem0 (ats ++ [okB])).2.mem i = mem0 i := by
  have hdef : readResponse false cap pre urc mem0 (ats ++ [okB])
      = readResponseLoop pre false cap urc (ats ++ [okB])
          (memWrite ⟨mem0, [], 0, 0, []⟩ 0 0) := rfl
  rw [hdef]
  obtain ⟨hout, hmem, hsize⟩ :=
    loop_at_then_ok pre false cap urc ats (memWrite ⟨mem0, [], 0, 0, []⟩ 0 0) h
  refine ⟨hout, by rw [hsize]; rfl, by rw [hmem]; simp [memWrite], fun i hi => ?_⟩
  rw [hmem]
  simp [memWrite, hi]

/-- Witness for the amended claim C4 at a concrete input: one echoed line
`"ATE0"` followed by `"OK"`, capacity 8, caller's buffer previously holding
byte 90 everywhere. -/
theorem C4_success_empty_buffer_witness :
    (readResponse false 8 none (fun _ => false) (fun _ => 90)
        ([[65, 84, 69, 48]] ++ [okB])).1 = .GSMResponseOK
    ∧ (readResponse false 8 none (fun _ => false) (fun _ => 90)
        ([[65, 84, 69, 48]] ++ [okB])).2.outSize = 0
    ∧ (readResponse false 8 none (fun _ => false) (fun _ => 90)
        ([[65, 84, 69, 48]] ++ [okB])).2.mem 0 = 0
    ∧ ∀ i, i ≠ 0 → (readResponse false 8 none (fun _ => false) (fun _ => 90)
        ([[65, 84, 69, 48]] ++ [okB])).2.mem i = (fun _ : Nat => 90) i :=
  C4_success_empty_buffer 8 none (fun _ => false) (fun _ => 90) [[65, 84, 69, 48]]
    (by decide)

/-! Congruence of the loop in the instrumentation-independent part of the
state: the outcome and the output-buffer effects depend only on the `mem`,
`writes` and `outSize` fields, not on the `wdt` and `urcs` counters. -/

theorem memcpyBuf_core_congr : ∀ (src : List Nat) (s t : RRState) (i : Nat),
    s.mem = t.mem → s.writes = t.writes → s.outSize = t.outSize →
    (memcpyBuf s i src).mem = (memcpyBuf t i src).mem
    ∧ (memcpyBuf s i src).writes = (memcpyBuf t i src).writes
    ∧ (memcpyBuf s i src).outSize = (memcpyBuf t i src).outSize
  | [], s, t, i, hm, hw, ho => ⟨hm, hw, ho⟩
  | b :: bs, s, t, i, hm, hw, ho => by
    simp only [memcpyBuf]
    exact memcpyBuf_core_congr bs (memWrite s i b) (memWrite t i b) (i + 1)
      (by simp [memWrite, hm]) (by simp [memWrite, hw]) (by simp [memWrite, ho])

theorem appendSep_core_congr (cap : Nat) (s t : RRState)
    (hm : s.mem = t.mem) (hw : s.writes = t.writes) (ho : s.outSize = t.outSize) :
    (appendSep cap s).mem = (appendSep cap t).mem
    ∧ (appendSep cap s).writes = (appendSep cap t).writes
    ∧ (appendSep cap s).outSize = (appendSep cap t).outSize := by
  unfold appendSep
  rw [ho]
  by_cases hc : 0 < t.outSize ∧ t.outSize < cap - 1
  · rw [if_pos hc, if_pos hc]
    exact ⟨by simp [memWrite, hm], by simp [memWrite, hw], by simp⟩
  · rw [if_neg hc, if_neg hc]
    exact ⟨hm, hw, ho⟩

theorem appendData_core_congr (cap : Nat) (inBuffer : List Nat) (count0 : Nat)
    (s t : RRState)
    (hm : s.mem = t.mem) (hw : s.writes = t.writes) (ho : s.outSize = t.outSize) :
    (appendData cap inBuffer count0 s).mem = (appendData cap inBuffer count0 t).mem
    ∧ (appendData cap inBuffer count0 s).writes = (appendData cap inBuffer count0 t).writes
    ∧ (appendData cap inBuffer count0 s).outSize = (appendData cap inBuffer count0 t).outSize := by
  unfold appendData
  rw [ho]
  by_cases hc : t.outSize < cap - 1
  · rw [if_pos hc, if_pos hc]
    obtain ⟨cm, cw, co⟩ := memcpyBuf_core_congr
      (inBuffer.take (if cap - 1 < t.outSize + count0 then cap - 1 - t.outSize else count0))
      s t t.outSize hm hw ho
    refine ⟨by simp [memWrite, cm, co, ho], by simp [memWrite, cw, co, ho],
      by simp [co, ho]⟩
  · rw [if_neg hc, if_neg hc]
    exact ⟨hm, hw, ho⟩

theorem rrStep_core_congr (pre : Option (List Nat)) (bn : Bool) (cap : Nat)
    (urc : List Nat → Bool) (l : List Nat) (s t : RRState)
    (hm : s.mem = t.mem) (hw : s.writes = t.writes) (ho : s.outSize = t.outSize) :
    (match rrStep pre bn cap urc l s, rrStep pre bn cap urc l t with
     | .done o1 s1, .done o2 t1 =>
         o1 = o2 ∧ s1.mem = t1.mem ∧ s1.writes = t1.writes ∧ s1.outSize = t1.outSize
     | .next s1, .next t1 =>
         s1.mem = t1.mem ∧ s1.writes = t1.writes ∧ s1.outSize = t1.outSize
     | _, _ => False) := by
  by_cases h0 : l.length = 0
  · rw [rrStep_empty pre bn cap urc l s h0, rrStep_empty pre bn cap urc l t h0]
    exact ⟨by simpa using hm, by simpa using hw, by simpa using ho⟩
  by_cases h1 : startsWith atB l
  · rw [rrStep_at pre bn cap urc l s h0 h1, rrStep_at pre bn cap urc l t h0 h1]
    exact ⟨by simpa using hm, by simpa using hw, by simpa using ho⟩
  replace h1 : startsWith atB l = false := by simpa using h1
  by_cases h2 : startsWith okB l
  · rw [rrStep_ok pre bn cap urc l s h0 h1 h2, rrStep_ok pre bn cap urc l t h0 h1 h2]
    exact ⟨rfl, by simpa using hm, by simpa using hw, by simpa using ho⟩
  replace h2 : startsWith okB l = false := by simpa using h2
  by_cases h3 : (startsWith errB l || startsWith cmeB l || startsWith cmsB l) = true
  · rw [rrStep_err pre bn cap urc l s h0 h1 h2 h3, rrStep_err pre bn cap urc l t h0 h1 h2 h3]
    exact ⟨rfl, by simpa using hm, by simpa using hw, by simpa using ho⟩
  replace h3 : (startsWith errB l || startsWith cmeB l || startsWith cmsB l) = false := by
    simpa using h3
  by_cases h4 : hasPreFor pre bn cap l
  · rw [rrStep_has_pre pre bn cap urc l s h0 h1 h2 h3 h4,
      rrStep_has_pre pre bn cap urc l t h0 h1 h2 h3 h4]
    exact appendData_core_congr cap (l.drop (pre.getD []).length)
      (l.length - (pre.getD []).length) (appendSep cap (bump s)) (appendSep cap (bump t))
      (appendSep_core_congr cap (bump s) (bump t) (by simpa using hm)
        (by simpa using hw) (by simpa using ho)).1
      (appendSep_core_congr cap (bump s) (bump t) (by simpa using hm)
        (by simpa using hw) (by simpa using ho)).2.1
      (appendSep_core_congr cap (bump s) (bump t) (by simpa using hm)
        (by simpa using hw) (by simpa using ho)).2.2
  replace h4 : hasPreFor pre bn cap l = false := by simpa using h4
  by_cases h5 : urc l
  · rw [rrStep_urc_claimed pre bn cap urc l s h0 h1 h2 h3 h4 h5,
      rrStep_urc_claimed pre bn cap urc l t h0 h1 h2 h3 h4 h5]
    exact ⟨by simpa using hm, by simpa using hw, by simpa using ho⟩
  replace h5 : urc l = false := by simpa using h5
  by_cases h6 : (!usePreOf pre && useOutB bn cap) = true
  · have h6a : usePreOf pre = false := by
      have := (Bool.and_eq_true _ _).mp h6
      simpa using this.1
    have h6b : useOutB bn cap = true := ((Bool.and_eq_true _ _).mp h6).2
    rw [rrStep_catch_all pre bn cap urc l s h0 h1 h2 h3 h4 h5 h6a h6b,
      rrStep_catch_all pre bn cap urc l t h0 h1 h2 h3 h4 h5 h6a h6b]
    exact appendData_core_congr cap l l.length
      (appendSep cap (offerURC (bump s) l)) (appendSep cap (offerURC (bump t) l))
      (appendSep_core_congr cap _ _ (by simpa using hm) (by simpa using hw)
        (by simpa using ho)).1
      (appendSep_core_congr cap _ _ (by simpa using hm) (by simpa using hw)
        (by simpa using ho)).2.1
      (appendSep_core_congr cap _ _ (by simpa using hm) (by simpa using hw)
        (by simpa using ho)).2.2
  · replace h6 : (!usePreOf pre && useOutB bn cap) = false := by simpa using h6
    rw [rrStep_discard pre bn cap urc l s h0 h1 h2 h3 h4 h5 h6,
      rrStep_discard pre bn cap urc l t h0 h1 h2 h3 h4 h5 h6]
    exact ⟨by simpa using hm, by simpa using hw, by simpa using ho⟩

theorem loop_core_congr (pre : Option (List Nat)) (bn : Bool) (cap : Nat)
    (urc : List Nat → Bool) : ∀ (lines : List (List Nat)) (s t : RRState),
    s.mem = t.mem → s.writes = t.writes → s.outSize = t.outSize →
    (readResponseLoop pre bn cap urc lines s).1 = (readResponseLoop pre bn cap urc lines t).1
    ∧ (readResponseLoop pre bn cap urc lines s).2.mem
        = (readResponseLoop pre bn cap urc lines t).2.mem
    ∧ (readResponseLoop pre bn cap urc lines s).2.writes
        = (readResponseLoop pre bn cap urc lines t).2.writes
    ∧ (readResponseLoop pre bn cap urc lines s).2.outSize
        = (readResponseLoop pre bn cap urc lines t).2.outSize
  | [], s, t, hm, hw, ho => by
    exact ⟨rfl, hm, hw, ho⟩
  | l :: rest, s, t, hm, hw, ho => by
    have hcore := rrStep_core_congr pre bn cap urc l s t hm hw ho
    rw [readResponseLoop, readResponseLoop]
    cases hs : rrStep pre bn cap urc l s <;> cases ht : rrStep pre bn cap urc l t <;>
      rw [hs, ht] at hcore
    · obtain ⟨hoeq, m1, w1, o1⟩ := hcore
      subst hoeq
      exact ⟨rfl, m1, w1, o1⟩
    · exact absurd hcore not_false
    · exact absurd hcore not_false
    · obtain ⟨m1, w1, o1⟩ := hcore
      exact loop_core_congr pre bn cap urc rest _ _ m1 w1 o1

/-- Claim C9: a framed line that is neither terminal (empty, echo, OK, error
marker) nor a match of the supplied expected prefix is offered to the URC
dispatch hook (`checkURC`), and when the hook claims it the iteration leaves
the output buffer untouched and the remainder of the run produces the same
outcome, buffer contents, and write trace as if the line had never arrived;
conversely a line matching the expected prefix is never offered to the URC
dispatch. -/
theorem C9_urc_dispatch (pre : Option (List Nat)) (bn : Bool) (cap : Nat)
    (urc : List Nat → Bool) (l : List Nat) (rest : List (List Nat)) (st : RRState)
    (h0 : l.length ≠ 0) (h1 : startsWith atB l = false)
    (h2 : startsWith okB l = false)
    (h3 : (startsWith errB l || startsWith cmeB l || startsWith cmsB l) = false) :
    (hasPreFor pre bn cap l = false → urc l = true →
       rrStep pre bn cap urc l st = .next (offerURC (bump st) l)
       ∧ (readResponseLoop pre bn cap urc (l :: rest) st).1
           = (readResponseLoop pre bn cap urc rest st).1
       ∧ (readResponseLoop pre bn cap urc (l :: rest) st).2.mem
           = (readResponseLoop pre bn cap urc rest st).2.mem
       ∧ (readResponseLoop pre bn cap urc (l :: rest) st).2.writes
           = (readResponseLoop pre bn cap urc rest st).2.writes
       ∧ (readResponseLoop pre bn cap urc (l :: rest) st).2.outSize
           = (readResponseLoop pre bn cap urc rest st).2.outSize)
    ∧ (hasPreFor pre bn cap l = true →
       ∃ s', rrStep pre bn cap urc l st = .next s' ∧ s'.urcs = st.urcs) := by
  constructor
  · intro h4 h5
    have hstep := rrStep_urc_claimed pre bn cap urc l st h0 h1 h2 h3 h4 h5
    have hloop : readResponseLoop pre bn cap urc (l :: rest) st
        = readResponseLoop pre bn cap urc rest (offerURC (bump st) l) := by
      rw [readResponseLoop, hstep]
    obtain ⟨a, b, c, d⟩ := loop_core_congr pre bn cap urc rest (offerURC (bump st) l) st
      (by simp) (by simp) (by simp)
    rw [hloop]
    exact ⟨hstep, a, b, c, d⟩
  · intro h4
    refine ⟨_, rrStep_has_pre pre bn cap urc l st h0 h1 h2 h3 h4, ?_⟩
    simp

/-- Witness for C9 at a concrete input: the line `"+FOO"` (bytes
`[43, 70, 79, 79]`) is non-terminal and does not match the expected prefix
`"+C"` (bytes `[43, 67]`), and the hook claims every line; the iteration
offers the line, and outcome, buffer, writes and size of the remaining run
(here just `"OK"`) are unaffected. -/
theorem C9_urc_dispatch_witness :
    rrStep (some [43, 67]) false 32 (fun _ => true) [43, 70, 79, 79]
        ⟨fun _ => 42, [], 0, 0, []⟩
      = .next (offerURC (bump ⟨fun _ => 42, [], 0, 0, []⟩) [43, 70, 79, 79])
    ∧ (readResponseLoop (some [43, 67]) false 32 (fun _ => true)
        ([43, 70, 79, 79] :: [okB]) ⟨fun _ => 42, [], 0, 0, []⟩).1
      = (readResponseLoop (some [43, 67]) false 32 (fun _ => true) [okB]
          ⟨fun _ => 42, [], 0, 0, []⟩).1
    ∧ (readResponseLoop (some [43, 67]) false 32 (fun _ => true)
        ([43, 70, 79, 79] :: [okB]) ⟨fun _ => 42, [], 0, 0, []⟩).2.mem
      = (readResponseLoop (some [43, 67]) false 32 (fun _ => true) [okB]
          ⟨fun _ => 42, [], 0, 0, []⟩).2.mem
    ∧ (readResponseLoop (some [43, 67]) false 32 (fun _ => true)
        ([43, 70, 79, 79] :: [okB]) ⟨fun _ => 42, [], 0, 0, []⟩).2.writes
      = (readResponseLoop (some [43, 67]) false 32 (fun _ => true) [okB]
          ⟨fun _ => 42, [], 0, 0, []⟩).2.writes
    ∧ (readResponseLoop (some [43, 67]) false 32 (fun _ => true)
        ([43, 70, 79, 79] :: [okB]) ⟨fun _ => 42, [], 0, 0, []⟩).2.outSize
      = (readResponseLoop (some [43, 67]) false 32 (fun _ => true) [okB]
          ⟨fun _ => 42, [], 0, 0, []⟩).2.outSize :=
  (C9_urc_dispatch (some [43, 67]) false 32 (fun _ => true) [43, 70, 79, 79] [okB]
      ⟨fun _ => 42, [], 0, 0, []⟩ (by decide) (by decide) (by decide) (by decide)).1
    (by decide) (by decide)

/-! Byte-level lemmas for the line framer. -/

theorem USIZE_val : USIZE = 4294967296 := by norm_num [USIZE]

theorem usub_one (n : Nat) (h1 : 1 ≤ n) (h2 : n ≤ USIZE) : usub n 1 = n - 1 := by
  rw [usub, USIZE_val]
  rw [USIZE_val] at h2
  omega

theorem rbu_no_term (t : Nat) : ∀ (p : List Nat) (f : Nat) (s : List Nat),
    (∀ b ∈ p, b ≠ t) → p.length ≤ f →
    readBytesUntil t f (p ++ s) = p ++ readBytesUntil t (f - p.length) s
  | [], f, s, _, _ => by simp
  | b :: bs, f, s, h, hf => by
    cases f with
    | zero => simp at hf
    | succ f' =>
      have hb : (b == t) = false := by
        simpa using h b (List.mem_cons_self b bs)
      simp only [List.cons_append, readBytesUntil, hb, Bool.false_eq_true, if_false]
      rw [show bs.append s = bs ++ s from rfl,
        rbu_no_term t bs f' s (fun x hx => h x (List.mem_cons_of_mem _ hx))
        (by simpa using hf)]
      simp [Nat.succ_sub_succ]

theorem rbu_crlf (f : Nat) (rest : List Nat) (hf : 1 ≤ f) :
    readBytesUntil 10 f (13 :: 10 :: rest) = [13] := by
  cases f with
  | zero => simp at hf
  | succ f' =>
    cases f' with
    | zero => simp [readBytesUntil]
    | succ f'' => simp [readBytesUntil]

theorem writeBytes_last : ∀ (p : List Nat) (mem : Nat → Nat) (i b : Nat),
    writeBytes mem i (p ++ [b]) (i + p.length) = b
  | [], mem, i, b => by simp [writeBytes]
  | c :: p', mem, i, b => by
    simp only [List.cons_append, writeBytes, List.length_cons]
    have hidx : i + (p'.length + 1) = (i + 1) + p'.length := by omega
    rw [hidx]
    exact writeBytes_last p' (fun j => if j = i then c else mem j) (i + 1) b

/-- Claim C10: for every input byte sequence consisting of a terminator-free
payload followed by the two-byte CR-LF terminator, fitting the line buffer,
`readLn` returns the payload length (both terminator bytes excluded) and the
buffer holds a NUL byte at exactly that returned length. -/
theorem C10_readLn_strips_crlf (p : List Nat) (size : Nat) (rest : List Nat)
    (mem0 : Nat → Nat) (hp : ∀ b ∈ p, b ≠ 10) (hsize : p.length + 2 ≤ size)
    (hmax : size ≤ USIZE) :
    ∃ m, readLn size (p ++ 13 :: 10 :: rest) mem0 = some (p.length, m)
      ∧ m p.length = 0 := by
  have hu : usub size 1 = size - 1 := usub_one size (by omega) hmax
  have hcol : readBytesUntil 10 (usub size 1) (p ++ 13 :: 10 :: rest) = p ++ [13] := by
    rw [hu, rbu_no_term 10 p (size - 1) (13 :: 10 :: rest) hp (by omega),
      rbu_crlf (size - 1 - p.length) rest (by omega)]
  have hlen : (p ++ [13]).length = p.length + 1 := by simp
  have hmax' : p.length + 1 ≤ USIZE := by omega
  have hu2 : usub (p.length + 1) 1 = p.length := by
    rw [usub_one (p.length + 1) (by omega) hmax']
    omega
  have hmem1 : writeBytes mem0 0 (p ++ [13]) p.length = 13 := by
    have := writeBytes_last p mem0 0 13
    simpa using this
  simp only [readLn, hcol, hlen, hu2]
  rw [if_pos (by omega : p.length < size)]
  have hstrip : (if p.length + 1 < usub size 1 then
        fun j => if j = p.length + 1 then 0 else writeBytes mem0 0 (p ++ [13]) j
      else writeBytes mem0 0 (p ++ [13])) p.length = 13 := by
    split
    · simp only [if_neg (by omega : ¬ p.length = p.length + 1)]
      exact hmem1
    · exact hmem1
  rw [if_pos hstrip]
  exact ⟨_, rfl, by simp⟩

/-- Witness for C10 at a concrete input: the stream `"OK\r\n"` into a
1024-byte line buffer yields length 2 and a NUL at index 2. -/
theorem C10_readLn_strips_crlf_witness :
    ∃ m, readLn 1024 ([79, 75] ++ 13 :: 10 :: []) (fun _ => 42) = some (2, m)
      ∧ m 2 = 0 :=
  C10_readLn_strips_crlf [79, 75] 1024 [] (fun _ => 42) (by decide) (by decide)
    (by rw [USIZE_val]; omega)

/-! Definitions and lemmas for claim C7: prefix-stripped assembly with
newline joining. -/

/-- Bytes of the payload assembled so far: the first `outSize` bytes of the
output buffer. -/
def rrContent (st : RRState) : List Nat := (List.range st.outSize).map st.mem

/-- Modelled from the claim (spec section 4.4): payload lines joined in
arrival order with a single newline byte (`10`) separator inserted before
every line after the first. -/
def joinNL : List (List Nat) → List Nat
  | [] => []
  | l :: ls =>
    match ls with
    | [] => l
    | _ :: _ => l ++ 10 :: joinNL ls

/-- Tail form of `joinNL`: a newline before each line. -/
def joinTail : List (List Nat) → List Nat
  | [] => []
  | s :: ss => (10 :: s) ++ joinTail ss

/-- Left fold of the assembler's effect on the logical content: append each
line, preceded by a separator whenever content is already present. -/
def glue : List Nat → List (List Nat) → List Nat
  | c, [] => c
  | c, s :: ss => glue (c ++ (if c.isEmpty then [] else [10]) ++ s) ss

/-- A line the run of claim C7 appends as payload: matches the expected
prefix, is not classified earlier (echo / OK / error), and strips to a
non-empty remainder. -/
def payloadB (p : List Nat) (l : List Nat) : Bool :=
  startsWith p l && !startsWith atB l && !startsWith okB l &&
  !(startsWith errB l || startsWith cmeB l || startsWith cmsB l) &&
  !(l.drop p.length).isEmpty

/-- A line the loop consumes without touching the output buffer when a
non-empty prefix was supplied: an empty read, an echo, or a non-terminal
line not matching the prefix (claimed by the URC hook or silently
discarded). -/
def skipB (p : List Nat) (l : List Nat) : Bool :=
  l.isEmpty || startsWith atB l ||
  (!startsWith okB l && !(startsWith errB l || startsWith cmeB l || startsWith cmsB l)
    && !startsWith p l)

/-- The assembler invariant: `outSize` is the length of the assembled
content and the buffer holds the content bytes below it. -/
def reps (st : RRState) (c : List Nat) : Prop :=
  st.outSize = c.length ∧ ∀ i, i < c.length → st.mem i = c.getD i 0

theorem reps_congr (s t : RRState) (c : List Nat) (hm : s.mem = t.mem)
    (ho : s.outSize = t.outSize) (h : reps t c) : reps s c :=
  ⟨ho.trans h.1, fun i hi => by rw [hm]; exact h.2 i hi⟩

theorem reps_bump (st : RRState) (c : List Nat) (h : reps st c) : reps (bump st) c :=
  reps_congr (bump st) st c rfl rfl h

theorem memcpyBuf_mem : ∀ (src : List Nat) (st : RRState) (i j : Nat),
    (memcpyBuf st i src).mem j
      = if i ≤ j ∧ j < i + src.length then src.getD (j - i) 0 else st.mem j
  | [], st, i, j => by
    rw [memcpyBuf, if_neg (by simp only [List.length_nil]; omega)]
  | b :: bs, st, i, j => by
    rw [memcpyBuf, memcpyBuf_mem bs (memWrite st i b) (i + 1) j]
    by_cases hji : j = i
    · subst hji
      rw [if_neg (by omega), if_pos (by simp only [List.length_cons]; omega)]
      simp [memWrite]
    · by_cases hin : i + 1 ≤ j ∧ j < i + 1 + bs.length
      · rw [if_pos hin, if_pos (by simp only [List.length_cons]; omega)]
        have hsub : j - i = (j - i - 1) + 1 := by omega
        rw [hsub, List.getD_cons_succ]
        congr 1
      · rw [if_neg hin, if_neg (by simp only [List.length_cons]; omega)]
        simp [memWrite, hji]

theorem appendSep_reps (cap : Nat) (st : RRState) (c : List Nat)
    (hr : reps st c) (hne : c ≠ []) (hcap : c.length + 1 ≤ cap - 1) :
    reps (appendSep cap st) (c ++ [10]) := by
  obtain ⟨ho, hm⟩ := hr
  have hc : 0 < st.outSize ∧ st.outSize < cap - 1 := by
    rw [ho]
    exact ⟨List.length_pos.mpr hne, by omega⟩
  rw [appendSep, if_pos hc]
  constructor
  · simp [memWrite, ho]
  · intro i hi
    simp only [List.length_append, List.length_cons, List.length_nil] at hi
    simp only [memWrite]
    by_cases hie : i = c.length
    · rw [if_pos (by rw [hie, ho]), hie,
        List.getD_append_right c [10] 0 c.length (Nat.le_refl _)]
      simp
    · have hi' : i < c.length := by omega
      rw [if_neg (by rw [ho]; exact hie), List.getD_append c [10] 0 i hi']
      exact hm i hi'

theorem appendSep_reps_nil (cap : Nat) (st : RRState) (hr : reps st []) :
    appendSep cap st = st := by
  rw [appendSep, if_neg]
  rw [hr.1]
  simp

theorem appendData_reps (cap : Nat) (st : RRState) (c s : List Nat)
    (hr : reps st c) (hcap : c.length + s.length ≤ cap - 1) :
    reps (appendData cap s s.length st) (c ++ s) := by
  obtain ⟨ho, hm⟩ := hr
  by_cases hlt : st.outSize < cap - 1
  · have hnoclip : ¬ cap - 1 < st.outSize + s.length := by omega
    rw [appendData, if_pos hlt]
    simp only [if_neg hnoclip, List.take_length]
    constructor
    · simp [memWrite, ho]
    · intro i hi
      simp only [List.length_append] at hi
      simp only [memWrite, memcpyBuf_outSize]
      rw [if_neg (by omega), memcpyBuf_mem s st st.outSize i, ho]
      by_cases hi' : i < c.length
      · rw [if_neg (by omega), List.getD_append c s 0 i hi']
        exact hm i hi'
      · rw [if_pos (by omega), List.getD_append_right c s 0 i (by omega)]
  · have hs : s = [] := by
      rw [ho] at hlt
      exact List.length_eq_zero.mp (by omega)
    subst hs
    rw [appendData, if_neg hlt]
    exact ⟨by simpa using ho, fun i hi => by
      rw [List.getD_append c [] 0 i (by simpa using hi)]
      exact hm i (by simpa using hi)⟩

theorem reps_content (st : RRState) (c : List Nat) (h : reps st c) :
    rrContent st = c := by
  obtain ⟨ho, hm⟩ := h
  apply List.ext_getElem
  · simp [rrContent, ho]
  · intro i h1 h2
    simp only [rrContent, List.getElem_map, List.getElem_range]
    rw [hm i h2, List.getD_eq_getElem]

theorem isEmpty_false_of_ne (c : List Nat) (h : c ≠ []) : c.isEmpty = false := by
  cases c with
  | nil => exact absurd rfl h
  | cons a as => rfl

theorem eq_nil_of_isEmpty (c : List Nat) (h : c.isEmpty = true) : c = [] := by
  cases c with
  | nil => rfl
  | cons a as => simp [List.isEmpty] at h

theorem startsWith_nil_right (p : List Nat) (hp : p ≠ []) : startsWith p [] = false := by
  cases p with
  | nil => exact absurd rfl hp
  | cons a as => rfl

theorem hasPre_some (p l : List Nat) (cap : Nat) (hp : p ≠ []) (hcap : 0 < cap) :
    hasPreFor (some p) false cap l = startsWith p l := by
  rw [hasPreFor]
  simp [usePreOf, useOutB, isEmpty_false_of_ne p hp, hcap]

theorem rrStep_skip (p : List Nat) (cap : Nat) (urc : List Nat → Bool)
    (l : List Nat) (st : RRState) (hp : p ≠ []) (hs : skipB p l = true) :
    ∃ s', rrStep (some p) false cap urc l st = .next s'
      ∧ s'.mem = st.mem ∧ s'.outSize = st.outSize := by
  by_cases h0 : l.length = 0
  · exact ⟨bump st, rrStep_empty (some p) false cap urc l st h0, rfl, rfl⟩
  by_cases h1 : startsWith atB l
  · exact ⟨bump st, rrStep_at (some p) false cap urc l st h0 h1, rfl, rfl⟩
  have hlne : l.isEmpty = false := by
    apply isEmpty_false_of_ne
    intro hc
    subst hc
    simp at h0
  replace h1 : startsWith atB l = false := by simpa using h1
  rw [skipB, hlne, h1, Bool.false_or, Bool.false_or] at hs
  simp only [Bool.and_eq_true, Bool.not_eq_true'] at hs
  obtain ⟨⟨h2, h3⟩, h4⟩ := hs
  have h4' : hasPreFor (some p) false cap l = false := by
    rw [hasPreFor]
    simp [h4]
  by_cases h5 : urc l
  · exact ⟨_, rrStep_urc_claimed (some p) false cap urc l st h0 h1 h2 h3 h4' h5,
      by simp, by simp⟩
  · refine ⟨_, rrStep_discard (some p) false cap urc l st h0 h1 h2 h3 h4'
      (by simpa using h5) ?_, by simp, by simp⟩
    simp [usePreOf, isEmpty_false_of_ne p hp]

theorem rrStep_payload (p : List Nat) (cap : Nat) (urc : List Nat → Bool)
    (l : List Nat) (st : RRState) (hp : p ≠ []) (hcap : 0 < cap)
    (hl : payloadB p l = true) :
    rrStep (some p) false cap urc l st
      = .next (appendData cap (l.drop p.length) (l.length - p.length)
          (appendSep cap (bump st))) := by
  simp only [payloadB, Bool.and_eq_true, Bool.not_eq_true'] at hl
  obtain ⟨⟨⟨⟨hpre, h1⟩, h2⟩, h3⟩, hne⟩ := hl
  have h0 : l.length ≠ 0 := by
    have hle := startsWith_length p l hpre
    have hplen : 0 < p.length := List.length_pos.mpr hp
    omega
  have h4 : hasPreFor (some p) false cap l = true := by
    rw [hasPre_some p l cap hp hcap]
    exact hpre
  have hst := rrStep_has_pre (some p) false cap urc l st h0 h1 h2 h3 h4
  simpa using hst

theorem skip_not_payload (p l : List Nat) (hp : p ≠ []) (hs : skipB p l = true) :
    payloadB p l = false := by
  rw [skipB] at hs
  rcases (Bool.or_eq_true _ _).mp hs with hs1 | hs1
  · rcases (Bool.or_eq_true _ _).mp hs1 with hs2 | hs2
    · have : l = [] := eq_nil_of_isEmpty l hs2
      subst this
      rw [payloadB, startsWith_nil_right p hp]
      rfl
    · rw [payloadB, hs2]
      simp
  · simp only [Bool.and_eq_true, Bool.not_eq_true'] at hs1
    obtain ⟨⟨_, _⟩, h4⟩ := hs1
    rw [payloadB, h4]
    rfl

theorem loopJoin (p : List Nat) (cap : Nat) (urc : List Nat → Bool) (hp : p ≠ []) :
    ∀ (lines : List (List Nat)) (c : List Nat) (st : RRState),
    reps st c →
    (∀ l ∈ lines, skipB p l = true ∨ payloadB p l = true) →
    (c.isEmpty = true →
      ((lines.filter (payloadB p)).map
        (fun l => (l.drop p.length).length + 1)).sum ≤ cap) →
    (c.isEmpty = false →
      c.length + ((lines.filter (payloadB p)).map
        (fun l => (l.drop p.length).length + 1)).sum ≤ cap - 1) →
    (readResponseLoop (some p) false cap urc (lines ++ [okB]) st).1 = .GSMResponseOK
    ∧ reps (readResponseLoop (some p) false cap urc (lines ++ [okB]) st).2
        (glue c ((lines.filter (payloadB p)).map (fun l => l.drop p.length)))
  | [], c, st, hr, _, _, _ => by
    rw [List.nil_append, readResponseLoop,
      rrStep_ok (some p) false cap urc okB st (by decide) (by decide) (by decide)]
    refine ⟨rfl, ?_⟩
    simp only [List.filter_nil, List.map_nil, glue]
    exact reps_bump st c hr
  | l :: rest, c, st, hr, hall, hc0, hc1 => by
    have hrest : ∀ x ∈ rest, skipB p x = true ∨ payloadB p x = true :=
      fun x hx => hall x (List.mem_cons_of_mem _ hx)
    rcases hall l (List.mem_cons_self l rest) with hskip | hpay
    · have hnp : payloadB p l = false := skip_not_payload p l hp hskip
      have hfil : List.filter (payloadB p) (l :: rest) = List.filter (payloadB p) rest :=
        List.filter_cons_of_neg (by simp [hnp])
      obtain ⟨s', hstep, hm, ho⟩ := rrStep_skip p cap urc l st hp hskip
      rw [List.cons_append, readResponseLoop, hstep, hfil]
      rw [hfil] at hc0 hc1
      exact loopJoin p cap urc hp rest c s' (reps_congr s' st c hm ho hr) hrest hc0 hc1
    · have hfil : List.filter (payloadB p) (l :: rest) = l :: List.filter (payloadB p) rest :=
        List.filter_cons_of_pos hpay
      have hsne : l.drop p.length ≠ [] := by
        simp only [payloadB, Bool.and_eq_true, Bool.not_eq_true'] at hpay
        intro hc
        rw [hc] at hpay
        simp at hpay
      have hcount : l.length - p.length = (l.drop p.length).length :=
        (List.length_drop _ _).symm
      by_cases hce : c.isEmpty = true
      · have hcnil : c = [] := eq_nil_of_isEmpty c hce
        subst hcnil
        have hsum := hc0 rfl
        rw [hfil] at hsum
        simp only [List.map_cons, List.sum_cons] at hsum
        have hcappos : 0 < cap := by omega
        rw [List.cons_append, readResponseLoop,
          rrStep_payload p cap urc l st hp hcappos hpay]
        have hsep : appendSep cap (bump st) = bump st :=
          appendSep_reps_nil cap (bump st) (reps_bump st [] hr)
        rw [hsep, hcount]
        have hrep1 : reps (appendData cap (l.drop p.length) (l.drop p.length).length
            (bump st)) ([] ++ l.drop p.length) :=
          appendData_reps cap (bump st) [] (l.drop p.length) (reps_bump st [] hr)
            (by simp only [List.length_nil]; omega)
        rw [List.nil_append] at hrep1
        have ih := loopJoin p cap urc hp rest (l.drop p.length)
          (appendData cap (l.drop p.length) (l.drop p.length).length (bump st))
          hrep1 hrest
          (fun he => absurd (eq_nil_of_isEmpty _ he) hsne)
          (fun _ => by omega)
        rw [hfil]
        simp only [List.map_cons, glue, List.isEmpty_nil, if_pos, List.nil_append]
        exact ih
      · have hcne : c ≠ [] := by
          intro hc
          subst hc
          exact hce rfl
        replace hce : c.isEmpty = false := isEmpty_false_of_ne c hcne
        have hsum := hc1 hce
        rw [hfil] at hsum
        simp only [List.map_cons, List.sum_cons] at hsum
        have hclen : 0 < c.length := List.length_pos.mpr hcne
        have hcappos : 0 < cap := by omega
        rw [List.cons_append, readResponseLoop,
          rrStep_payload p cap urc l st hp hcappos hpay]
        rw [hcount]
        have hsep : reps (appendSep cap (bump st)) (c ++ [10]) :=
          appendSep_reps cap (bump st) c (reps_bump st c hr) hcne (by omega)
        have hrep1 : reps (appendData cap (l.drop p.length) (l.drop p.length).length
            (appendSep cap (bump st))) ((c ++ [10]) ++ l.drop p.length) :=
          appendData_reps cap (appendSep cap (bump st)) (c ++ [10]) (l.drop p.length) hsep
            (by simp only [List.length_append, List.length_cons, List.length_nil]; omega)
        have hc'ne : (c ++ [10]) ++ l.drop p.length ≠ [] := by
          intro hx
          rw [List.append_eq_nil, List.append_eq_nil] at hx
          exact hcne hx.1.1
        have ih := loopJoin p cap urc hp rest ((c ++ [10]) ++ l.drop p.length)
          (appendData cap (l.drop p.length) (l.drop p.length).length
            (appendSep cap (bump st)))
          hrep1 hrest
          (fun he => absurd (eq_nil_of_isEmpty _ he) hc'ne)
          (fun _ => by
            simp only [List.length_append, List.length_cons, List.length_nil]
            omega)
        rw [hfil]
        simp only [List.map_cons, glue, hce, Bool.false_eq_true, if_false]
        exact ih

theorem glue_ne : ∀ (ss : List (List Nat)) (c : List Nat), c ≠ [] →
    glue c ss = c ++ joinTail ss
  | [], c, _ => by simp [glue, joinTail]
  | s :: ss, c, hc => by
    rw [glue]
    simp only [isEmpty_false_of_ne c hc, Bool.false_eq_true, if_false]
    rw [glue_ne ss (c ++ [10] ++ s) (by
      intro hx
      rw [List.append_eq_nil, List.append_eq_nil] at hx
      exact hc hx.1.1)]
    simp [joinTail, List.append_assoc]

theorem joinNL_tail : ∀ (ts : List (List Nat)) (t : List Nat),
    joinTail (t :: ts) = 10 :: joinNL (t :: ts)
  | [], t => by simp [joinTail, joinNL]
  | u :: us, t => by
    rw [joinTail, joinNL_tail us u]
    simp [joinNL]

theorem glue_nil_joinNL (ss : List (List Nat)) (h : ∀ s ∈ ss, s ≠ []) :
    glue [] ss = joinNL ss := by
  cases ss with
  | nil => rfl
  | cons s ts =>
    have hs : s ≠ [] := h s (List.mem_cons_self s ts)
    rw [glue]
    simp only [List.isEmpty_nil, if_true, List.nil_append]
    rw [glue_ne ts s hs]
    cases ts with
    | nil => simp [joinTail, joinNL]
    | cons u us =>
      rw [joinNL_tail us u]
      simp [joinNL]

/-- Claim C7: in a `readResponse` run with a non-empty expected prefix and an
enabled output buffer — where every line before the final `"OK"` is either
skipped (empty read, echo, or non-prefixed non-terminal line, claimed by the
URC hook or not) or matches the prefix with a non-empty remainder — and the
buffer capacity suffices, each prefix-matching line is appended with exactly
the prefix's byte length stripped from its front, joined in arrival order
with a single `'\n'` separator before every appended line after the first,
and the outcome is Success. -/
theorem C7_strip_and_join (p : List Nat) (cap : Nat) (urc : List Nat → Bool)
    (mem0 : Nat → Nat) (lines : List (List Nat)) (hp : p ≠ [])
    (hall : ∀ l ∈ lines, skipB p l = true ∨ payloadB p l = true)
    (hcap : ((lines.filter (payloadB p)).map
        (fun l => (l.drop p.length).length + 1)).sum ≤ cap) :
    (readResponse false cap (some p) urc mem0 (lines ++ [okB])).1 = .GSMResponseOK
    ∧ rrContent (readResponse false cap (some p) urc mem0 (lines ++ [okB])).2
        = joinNL ((lines.filter (payloadB p)).map (fun l => l.drop p.length)) := by
  have hdef : readResponse false cap (some p) urc mem0 (lines ++ [okB])
      = readResponseLoop (some p) false cap urc (lines ++ [okB])
          (memWrite ⟨mem0, [], 0, 0, []⟩ 0 0) := rfl
  have hreps0 : reps (memWrite ⟨mem0, [], 0, 0, []⟩ 0 0) [] :=
    ⟨rfl, fun i hi => absurd hi (by simp)⟩
  obtain ⟨h1, h2⟩ := loopJoin p cap urc hp lines [] (memWrite ⟨mem0, [], 0, 0, []⟩ 0 0)
    hreps0 hall (fun _ => hcap) (fun he => by simp at he)
  rw [hdef]
  refine ⟨h1, ?_⟩
  rw [reps_content _ _ h2]
  apply glue_nil_joinNL
  intro s hsmem
  rw [List.mem_map] at hsmem
  obtain ⟨l, hlmem, rfl⟩ := hsmem
  have hpl := List.of_mem_filter hlmem
  simp only [payloadB, Bool.and_eq_true, Bool.not_eq_true'] at hpl
  intro hc
  rw [hc] at hpl
  simp at hpl

/-- Witness for C7 at the claim's own example: prefix `"+CSQ: "`, input line
`"+CSQ: 15,99"` then `"OK"`; the Output Buffer equals `"15,99"` (bytes
`[49, 53, 44, 57, 57]`) and the outcome is Success. -/
theorem C7_strip_and_join_witness :
    (readResponse false 16 (some [43, 67, 83, 81, 58, 32]) (fun _ => false)
        (fun _ => 42) ([[43, 67, 83, 81, 58, 32, 49, 53, 44, 57, 57]] ++ [okB])).1
      = .GSMResponseOK
    ∧ rrContent (readResponse false 16 (some [43, 67, 83, 81, 58, 32]) (fun _ => false)
        (fun _ => 42) ([[43, 67, 83, 81, 58, 32, 49, 53, 44, 57, 57]] ++ [okB])).2
      = [49, 53, 44, 57, 57] := by
  have h := C7_strip_and_join [43, 67, 83, 81, 58, 32] 16 (fun _ => false) (fun _ => 42)
    [[43, 67, 83, 81, 58, 32, 49, 53, 44, 57, 57]] (by decide) (by decide) (by decide)
  exact ⟨h.1, by rw [h.2]; decide⟩
